import Mathlib

/-!
Verification development for the qar-streaming-c session/streaming core
(repository Quaternar/qaros).

Part 1 embeds the helper functions that ship in source form with the
repository (`common.h` and the CPU rendering example):
`print_hex_id`, `get_dir_from_path`, `render_gradient`.

Part 2 models the library surface that the repository distributes only as a
binary package (session join, scene registries, render sender, asynchronous
peer invitation); those definitions carry a `Modelled from the spec` note.

Bytes are `Fin 256` (C `uint8_t`); C strings are `List Char`; byte buffers
are functions `Nat → Nat` from byte offset to stored value.
-/

namespace Qar

/-- One uppercase hexadecimal digit, as produced by printf `%02X`
for a nibble value `n < 16`. -/
def hexDigit (n : Nat) : Char :=
  if n < 10 then Char.ofNat ('0'.toNat + n) else Char.ofNat ('A'.toNat + (n - 10))

/-- The two uppercase hexadecimal digits printf `%02X` emits for one byte. -/
def byteHex (b : Fin 256) : List Char :=
  [hexDigit (b.val / 16), hexDigit (b.val % 16)]

/-- The `common.h` helper `print_hex_id`: prints each byte as `%02X` and a `":"`
between consecutive bytes (`if(i + 1 < len) printf(":")`), captured as the
emitted character sequence. -/
def print_hex_id : List (Fin 256) → List Char
  | [] => []
  | [b] => byteHex b
  | b :: rest => byteHex b ++ ':' :: print_hex_id rest

/-- Character class of printf `%X` output: digit or uppercase `A`–`F`. -/
def isUpperHexDigit (c : Char) : Bool :=
  ('0' ≤ c && c ≤ '9') || ('A' ≤ c && c ≤ 'F')

/-- Separator test `c == '/' || c == '\\'` from `get_dir_from_path`. -/
def isSep (c : Char) : Bool :=
  c == '/' || c == '\\'

/-- The `common.h` helper `get_dir_from_path`.  `path = none` models a NULL `path`
pointer and `out_dir_present = false` a NULL `out_dir` pointer.  The C
`while` loop scans from the end of the string and leaves
`i = strlen(path) - (number of trailing non-separator characters)`;
`i = 0` means no separator, handled by `snprintf(out_dir, out_sz, ".")`
(which truncates to `out_sz - 1` characters), otherwise
`dir_len = (i > out_sz - 1) ? (out_sz - 1) : i` bytes are copied. -/
def get_dir_from_path (path : Option (List Char)) (out_dir_present : Bool)
    (out_sz : Nat) : Option (List Char) :=
  match path with
  | none => none
  | some p =>
    if out_dir_present = false then none
    else if out_sz = 0 then none
    else
      let n := p.length
      let i := n - (p.reverse.takeWhile (fun c => !isSep c)).length
      if i = 0 then
        some (['.'].take (out_sz - 1))
      else
        let dir_len := if i > out_sz - 1 then out_sz - 1 else i
        some (p.take dir_len)

/-- Index of the last `'/'` or `'\\'` in `p`, if any: the first separator of
the reversed string sits at reverse-index `j`, i.e. forward index
`p.length - 1 - j`. -/
def lastSepIdx (p : List Char) : Option Nat :=
  (p.reverse.findIdx? isSep).map (fun j => p.length - 1 - j)

/-- The directory-extraction behavior in the words of the claim (amended):
`"."` truncated to `out_sz - 1` bytes when `path` has no separator,
otherwise the prefix of `path` up to and including the last separator,
truncated to `out_sz - 1` bytes. -/
def get_dir_from_path_claimed (path : Option (List Char)) (out_dir_present : Bool)
    (out_sz : Nat) : Option (List Char) :=
  match path with
  | none => none
  | some p =>
    if out_dir_present = false then none
    else if out_sz = 0 then none
    else
      match lastSepIdx p with
      | none => some (['.'].take (out_sz - 1))
      | some k => some ((p.take (k + 1)).take (out_sz - 1))

lemma hexDigit_upperHex : ∀ n : Fin 16, isUpperHexDigit (hexDigit n.val) = true := by decide

lemma byteHex_length (b : Fin 256) : (byteHex b).length = 2 := rfl

lemma byteHex_upperHex (b : Fin 256) : ∀ c ∈ byteHex b, isUpperHexDigit c = true := by
  intro c hc
  have h1 := hexDigit_upperHex ⟨b.val / 16, by omega⟩
  have h2 := hexDigit_upperHex ⟨b.val % 16, Nat.mod_lt _ (by norm_num)⟩
  simp only [byteHex, List.mem_cons, List.mem_singleton, List.not_mem_nil] at hc
  rcases hc with h | h | h
  · simpa [h] using h1
  · simpa [h] using h2
  · cases h

lemma print_hex_id_eq_intercalate :
    ∀ data : List (Fin 256), print_hex_id data = List.intercalate [':'] (data.map byteHex) := by
  intro data
  induction data with
  | nil => simp [print_hex_id, List.intercalate]
  | cons b rest ih =>
    cases rest with
    | nil => simp [print_hex_id, List.intercalate]
    | cons c rs =>
      simp only [print_hex_id, ih, List.map_cons]
      simp [List.intercalate]

lemma print_hex_id_length :
    ∀ data : List (Fin 256),
      (print_hex_id data).length = if data = [] then 0 else 3 * data.length - 1 := by
  intro data
  induction data with
  | nil => simp [print_hex_id]
  | cons b rest ih =>
    cases rest with
    | nil => simp [print_hex_id, byteHex]
    | cons c rs =>
      have h : print_hex_id (b :: c :: rs) = byteHex b ++ ':' :: print_hex_id (c :: rs) := rfl
      rw [h]
      simp only [List.length_append, List.length_cons] at *
      rw [ih]
      simp only [byteHex, List.length_cons, List.length_nil]
      have hcrs : (c :: rs : List (Fin 256)) ≠ [] := by simp
      simp only [hcrs, if_false, List.length_cons]
      have hne : (b :: c :: rs : List (Fin 256)) ≠ [] := by simp
      simp only [hne, if_false, List.length_cons]
      omega

/-- C9: for every byte array, `print_hex_id` emits each byte as exactly two
uppercase hexadecimal digits with a single colon between consecutive bytes
and no leading or trailing colon: the output is the `":"`-intercalation of
the per-byte two-character uppercase-hex chunks, hence exactly `3 * n - 1`
characters for `n ≥ 1` and no output for `n = 0`. -/
theorem print_hex_id_format (data : List (Fin 256)) :
    print_hex_id data = List.intercalate [':'] (data.map byteHex) ∧
    (∀ b : Fin 256, (byteHex b).length = 2 ∧ ∀ c ∈ byteHex b, isUpperHexDigit c = true) ∧
    (data = [] → print_hex_id data = []) ∧
    (data ≠ [] → (print_hex_id data).length = 3 * data.length - 1) := by
  refine ⟨print_hex_id_eq_intercalate data,
    fun b => ⟨byteHex_length b, byteHex_upperHex b⟩, ?_, ?_⟩
  · rintro rfl; rfl
  · intro hne
    rw [print_hex_id_length data, if_neg hne]

/-- Concrete instance of `print_hex_id_format` at the two-byte array
`0A:FF`. -/
theorem print_hex_id_format_witness :
    print_hex_id [(10 : Fin 256), 255] =
      List.intercalate [':'] ([(10 : Fin 256), 255].map byteHex) ∧
    (print_hex_id [(10 : Fin 256), 255]).length = 3 * 2 - 1 :=
  ⟨(print_hex_id_format [(10 : Fin 256), 255]).1,
   (print_hex_id_format [(10 : Fin 256), 255]).2.2.2 (by decide)⟩

lemma findIdx?_none_takeWhile {α : Type} (p : α → Bool) (l : List α)
    (h : l.findIdx? p = none) : l.takeWhile (fun c => !p c) = l := by
  induction l with
  | nil => rfl
  | cons x xs ih =>
    by_cases hx : p x
    · simp [List.findIdx?_cons, hx] at h
    · rw [List.findIdx?_cons, if_neg hx, List.findIdx?_succ,
        Option.map_eq_none'] at h
      rw [List.takeWhile_cons]
      simp [hx, ih h]

lemma findIdx?_some_takeWhile {α : Type} (p : α → Bool) (l : List α) (j : Nat)
    (h : l.findIdx? p = some j) :
    (l.takeWhile (fun c => !p c)).length = j ∧ j < l.length := by
  induction l generalizing j with
  | nil => simp [List.findIdx?] at h
  | cons x xs ih =>
    by_cases hx : p x
    · rw [List.findIdx?_cons, if_pos hx] at h
      obtain rfl : 0 = j := Option.some.inj h
      simp [List.takeWhile_cons, hx]
    · rw [List.findIdx?_cons, if_neg hx, List.findIdx?_succ,
        Option.map_eq_some'] at h
      obtain ⟨j0, hj0, rfl⟩ := h
      have := ih j0 hj0
      rw [List.takeWhile_cons]
      simp only [hx, Bool.not_false, if_true, List.length_cons, List.length_cons]
      omega

/-- C10 (amended): `get_dir_from_path` returns `none` exactly when `path` is
NULL, `out_dir` is NULL, or `out_sz = 0`; otherwise it agrees with the
claimed characterization (the `"."` default and the prefix up to and
including the last separator, each truncated to `out_sz - 1` bytes) and the
written string never exceeds `out_sz - 1` characters. -/
theorem get_dir_from_path_spec (path : Option (List Char)) (out_dir_present : Bool)
    (out_sz : Nat) :
    (get_dir_from_path path out_dir_present out_sz = none ↔
      path = none ∨ out_dir_present = false ∨ out_sz = 0) ∧
    get_dir_from_path path out_dir_present out_sz =
      get_dir_from_path_claimed path out_dir_present out_sz ∧
    (∀ d, get_dir_from_path path out_dir_present out_sz = some d →
      d.length ≤ out_sz - 1) := by
  match path with
  | none => simp [get_dir_from_path, get_dir_from_path_claimed]
  | some p =>
    by_cases hout : out_dir_present = false
    · simp [get_dir_from_path, get_dir_from_path_claimed, hout]
    · by_cases hsz : out_sz = 0
      · simp [get_dir_from_path, get_dir_from_path_claimed, hout, hsz]
      · simp only [get_dir_from_path, get_dir_from_path_claimed, hout, hsz,
          if_false, if_neg hsz]
        rcases hfi : p.reverse.findIdx? isSep with _ | j
        · have htw := findIdx?_none_takeWhile isSep p.reverse hfi
          have hlen : (p.reverse.takeWhile (fun c => !isSep c)).length = p.length := by
            rw [htw, List.length_reverse]
          simp only [lastSepIdx, hfi, Option.map_none', hlen, Nat.sub_self, if_pos rfl]
          refine ⟨by simp, rfl, ?_⟩
          intro d hd
          have hdd : d = ['.'].take (out_sz - 1) := by
            simpa using hd.symm
          subst hdd
          simp [List.length_take]
        · obtain ⟨hlen, hjlt⟩ := findIdx?_some_takeWhile isSep p.reverse j hfi
          rw [List.length_reverse] at hjlt
          have hi : p.length - (p.reverse.takeWhile (fun c => !isSep c)).length
              = p.length - j := by rw [hlen]
          simp only [lastSepIdx, hfi, Option.map_some', hi]
          have hine : ¬ (p.length - j = 0) := by omega
          simp only [hine, if_false]
          have hk1 : p.length - 1 - j + 1 = p.length - j := by omega
          rw [hk1, List.take_take]
          have harg : (if p.length - j > out_sz - 1 then out_sz - 1 else p.length - j)
              = (out_sz - 1) ⊓ (p.length - j) := by
            rcases Nat.lt_or_ge (out_sz - 1) (p.length - j) with h | h
            · simp [Nat.min_eq_left, Nat.min_eq_right, h.le]; omega
            · rw [if_neg (by omega)]; omega
          rw [harg]
          refine ⟨by simp, rfl, ?_⟩
          intro d hd
          have hdd : d = p.take ((out_sz - 1) ⊓ (p.length - j)) := by
            simpa using hd.symm
          subst hdd
          rw [List.length_take]
          omega

/-- Concrete instance of `get_dir_from_path_spec` at path `"a/b"` with a
buffer of 8 bytes: the extracted directory is `"a/"`, two characters,
within the `out_sz - 1` bound. -/
theorem get_dir_from_path_spec_witness :
    get_dir_from_path (some ['a', '/', 'b']) true 8 =
      get_dir_from_path_claimed (some ['a', '/', 'b']) true 8 ∧
    (['a', '/'] : List Char).length ≤ 8 - 1 :=
  ⟨(get_dir_from_path_spec (some ['a', '/', 'b']) true 8).2.1,
   (get_dir_from_path_spec (some ['a', '/', 'b']) true 8).2.2 ['a', '/'] (by decide)⟩

/-- C10 counterexample to the claim as stated: for path `"abc"` (which has
no separator) and `out_sz = 1`, the C code's `snprintf(out_dir, 1, ".")`
truncates to the empty string, so the output is not equal to `"."`. -/
theorem get_dir_from_path_dot_counterexample :
    get_dir_from_path (some ['a', 'b', 'c']) true 1 = some [] ∧
    get_dir_from_path (some ['a', 'b', 'c']) true 1 ≠ some ['.'] := by
  constructor <;> decide

/-! ### CPU gradient rendering (`cpu_rendering_visualizer.c`) -/

/-- A CPU texture as seen by `render_gradient`: `texture_data = none` models
a NULL data pointer; a buffer is a function from byte offset to byte
value. -/
structure QarVideoTextureCpu where
  texture_data : Option (Nat → Nat)
  width : Nat
  height : Nat
  pitch : Nat

/-- A CPU video frame: the `textures` array of `textures_count` entries. -/
structure QarVideoFrameCpu where
  textures : List QarVideoTextureCpu

/-- One store `row[a] = v` into a byte buffer. -/
def setByte (m : Nat → Nat) (a v : Nat) : Nat → Nat :=
  fun b => if b = a then v else m b

/-- Truncation to C `uint32_t`: `y`, `pitch`, `x`, `width` and `height` are
`uint32_t` in the source, so the products `y * pitch` and `x * 4` are
computed modulo `2 ^ 32`. -/
def uint32 (n : Nat) : Nat := n % 2 ^ 32

/-- The four stores of one `render_gradient` loop body for pixel `x` of row
`y`: `row = texture_data + y * pitch` with the product computed in
`uint32_t` (wrapping modulo `2 ^ 32`), `pixel_index = x * 4` likewise a
`uint32_t` product, channel values `(x + frame_index * 8) % 256`,
`(y + frame_index * 16) % 256`, `(frame_index * 32) % 256`, `255` (the
sums feeding `% 256` are `size_t`; `256` divides `2 ^ 64`, so `% 2 ^ 64`
before `% 256` leaves the stored byte unchanged). -/
def renderPixel (frame_index y pitch x : Nat) (m : Nat → Nat) : Nat → Nat :=
  setByte (setByte (setByte (setByte m
    (uint32 (y * pitch) + uint32 (x * 4)) ((x + frame_index * 8) % 256))
    (uint32 (y * pitch) + uint32 (x * 4) + 1) ((y + frame_index * 16) % 256))
    (uint32 (y * pitch) + uint32 (x * 4) + 2) ((frame_index * 32) % 256))
    (uint32 (y * pitch) + uint32 (x * 4) + 3) 255

/-- The inner `for(x = 0; x < width; ++x)` loop of `render_gradient`. -/
def renderRow (frame_index y pitch : Nat) : Nat → (Nat → Nat) → (Nat → Nat)
  | 0, m => m
  | x + 1, m => renderPixel frame_index y pitch x (renderRow frame_index y pitch x m)

/-- The outer `for(y = 0; y < height; ++y)` loop of `render_gradient`. -/
def renderRows (frame_index pitch width : Nat) : Nat → (Nat → Nat) → (Nat → Nat)
  | 0, m => m
  | y + 1, m => renderRow frame_index y pitch width (renderRows frame_index pitch width y m)

/-- Per-texture body of `render_gradient`, including the
`if(!texture->texture_data || width == 0 || height == 0) continue;`
guard. -/
def renderTexture (frame_index : Nat) (t : QarVideoTextureCpu) : QarVideoTextureCpu :=
  match t.texture_data with
  | none => t
  | some m =>
    if t.width = 0 || t.height = 0 then t
    else { t with
      texture_data := some (renderRows frame_index t.pitch t.width t.height m) }

/-- The function `render_gradient(frame, frame_index)`: a NULL frame is left alone,
otherwise every texture of the frame is rendered. -/
def render_gradient (frame : Option QarVideoFrameCpu) (frame_index : Nat) :
    Option QarVideoFrameCpu :=
  match frame with
  | none => none
  | some f => some ⟨f.textures.map (renderTexture frame_index)⟩

lemma renderPixel_eq_of_outside (fi y pitch x : Nat) (m : Nat → Nat) (a : Nat)
    (hy : y * pitch < 2 ^ 32) (hx : x * 4 < 2 ^ 32)
    (h : a < y * pitch + 4 * x ∨ y * pitch + 4 * x + 4 ≤ a) :
    renderPixel fi y pitch x m a = m a := by
  unfold renderPixel setByte uint32
  rw [Nat.mod_eq_of_lt hy, Nat.mod_eq_of_lt hx]
  have h0 : ¬ (a = y * pitch + x * 4) := by omega
  have h1 : ¬ (a = y * pitch + x * 4 + 1) := by omega
  have h2 : ¬ (a = y * pitch + x * 4 + 2) := by omega
  have h3 : ¬ (a = y * pitch + x * 4 + 3) := by omega
  simp only [h0, h1, h2, h3, if_false]

lemma renderRow_eq_of_outside (fi y pitch w : Nat) (m : Nat → Nat) (a : Nat)
    (hy : y * pitch < 2 ^ 32) (hw : 4 * w ≤ 2 ^ 32)
    (h : a < y * pitch ∨ y * pitch + 4 * w ≤ a) :
    renderRow fi y pitch w m a = m a := by
  induction w with
  | zero => rfl
  | succ x ih =>
    show renderPixel fi y pitch x (renderRow fi y pitch x m) a = m a
    rw [renderPixel_eq_of_outside fi y pitch x _ a hy (by omega) (by omega)]
    exact ih (by omega) (by omega)

lemma renderRow_alpha (fi y pitch w : Nat) (m : Nat → Nat) (x : Nat) (hx : x < w)
    (hy : y * pitch < 2 ^ 32) (hw : 4 * w ≤ 2 ^ 32) :
    renderRow fi y pitch w m (y * pitch + x * 4 + 3) = 255 := by
  induction w with
  | zero => omega
  | succ w' ih =>
    show renderPixel fi y pitch w' (renderRow fi y pitch w' m)
      (y * pitch + x * 4 + 3) = 255
    by_cases hxw : x = w'
    · subst hxw
      have hx4 : x * 4 < 2 ^ 32 := by omega
      unfold renderPixel setByte uint32
      rw [Nat.mod_eq_of_lt hy, Nat.mod_eq_of_lt hx4]
      simp
    · have hx' : x < w' := by omega
      rw [renderPixel_eq_of_outside fi y pitch w' _ _ hy (by omega) (by omega)]
      exact ih hx' (by omega)

lemma renderRows_eq_of_outside (fi pitch w h : Nat) (m : Nat → Nat) (a : Nat)
    (hrows : ∀ y < h, y * pitch < 2 ^ 32) (hw : 4 * w ≤ 2 ^ 32)
    (hout : ∀ y < h, a < y * pitch ∨ y * pitch + 4 * w ≤ a) :
    renderRows fi pitch w h m a = m a := by
  induction h with
  | zero => rfl
  | succ y ih =>
    show renderRow fi y pitch w (renderRows fi pitch w y m) a = m a
    rw [renderRow_eq_of_outside fi y pitch w _ a (hrows y (by omega)) hw
      (hout y (by omega))]
    exact ih (fun y' hy' => hrows y' (by omega)) (fun y' hy' => hout y' (by omega))

lemma renderRows_padding (fi pitch w h : Nat) (m : Nat → Nat)
    (y o : Nat) (hy : y < h) (ho1 : 4 * w ≤ o) (ho2 : o < pitch)
    (hrows : ∀ y' < h, y' * pitch < 2 ^ 32) (hw : 4 * w ≤ 2 ^ 32) :
    renderRows fi pitch w h m (y * pitch + o) = m (y * pitch + o) := by
  apply renderRows_eq_of_outside fi pitch w h m _ hrows hw
  intro y' hy'
  rcases Nat.lt_trichotomy y' y with hlt | heq | hgt
  · right
    have hmul := Nat.mul_le_mul_right pitch (show y' + 1 ≤ y by omega)
    rw [Nat.succ_mul] at hmul
    omega
  · subst heq; right; omega
  · left
    have hmul := Nat.mul_le_mul_right pitch (show y + 1 ≤ y' by omega)
    rw [Nat.succ_mul] at hmul
    omega

lemma renderRows_alpha (fi pitch w h : Nat) (m : Nat → Nat) (hp : 4 * w ≤ pitch)
    (y x : Nat) (hy : y < h) (hx : x < w)
    (hrows : ∀ y' < h, y' * pitch < 2 ^ 32) (hw : 4 * w ≤ 2 ^ 32) :
    renderRows fi pitch w h m (y * pitch + x * 4 + 3) = 255 := by
  induction h with
  | zero => omega
  | succ h' ih =>
    show renderRow fi h' pitch w (renderRows fi pitch w h' m)
      (y * pitch + x * 4 + 3) = 255
    by_cases hyh : y = h'
    · subst hyh
      exact renderRow_alpha fi y pitch w _ x hx (hrows y (by omega)) hw
    · have hy' : y < h' := by omega
      rw [renderRow_eq_of_outside fi h' pitch w _ _ (hrows h' (by omega)) hw ?_]
      · exact ih hy' (fun y' hy2 => hrows y' (by omega))
      · left
        have hmul := Nat.mul_le_mul_right pitch (show y + 1 ≤ h' by omega)
        rw [Nat.succ_mul] at hmul
        omega

/-- C8 (amended): for every CPU frame texture with non-null data, nonzero
width and height, `pitch ≥ width * 4`, and dimensions that do not overflow
the 32-bit row-offset computation (`pitch < 2 ^ 32` as a `uint32_t` value
and `(height - 1) * pitch < 2 ^ 32`), `render_gradient` renders each
texture of the frame; the rendered buffer agrees with the original outside
the row spans `[y * pitch, y * pitch + width * 4)`, leaves every padding
byte between `width * 4` and `pitch` of every row unmodified, and stores
`255` in the fourth (alpha) byte of every written pixel.  Without the
overflow bound the property fails: see
the wrap counterexample below. -/
theorem render_gradient_pitch_rows (f : QarVideoFrameCpu) (fi : Nat)
    (t : QarVideoTextureCpu) (ht : t ∈ f.textures) (m : Nat → Nat)
    (hm : t.texture_data = some m) (hw : t.width ≠ 0) (hh : t.height ≠ 0)
    (hp : 4 * t.width ≤ t.pitch) (hP : t.pitch < 2 ^ 32)
    (hnw : (t.height - 1) * t.pitch < 2 ^ 32) :
    render_gradient (some f) fi = some ⟨f.textures.map (renderTexture fi)⟩ ∧
    renderTexture fi t ∈ f.textures.map (renderTexture fi) ∧
    ∃ m2, (renderTexture fi t).texture_data = some m2 ∧
      (∀ a, (∀ y < t.height, a < y * t.pitch ∨ y * t.pitch + 4 * t.width ≤ a) →
        m2 a = m a) ∧
      (∀ y < t.height, ∀ o, 4 * t.width ≤ o → o < t.pitch →
        m2 (y * t.pitch + o) = m (y * t.pitch + o)) ∧
      (∀ y < t.height, ∀ x < t.width, m2 (y * t.pitch + x * 4 + 3) = 255) := by
  have hrows : ∀ y < t.height, y * t.pitch < 2 ^ 32 := by
    intro y hy
    have hmul := Nat.mul_le_mul_right t.pitch (show y ≤ t.height - 1 by omega)
    omega
  have hw32 : 4 * t.width ≤ 2 ^ 32 := by omega
  refine ⟨rfl, List.mem_map_of_mem _ ht, renderRows fi t.pitch t.width t.height m,
    ?_, ?_, ?_, ?_⟩
  · simp [renderTexture, hm, hw, hh]
  · intro a ha
    exact renderRows_eq_of_outside fi t.pitch t.width t.height m a hrows hw32 ha
  · intro y hy o ho1 ho2
    exact renderRows_padding fi t.pitch t.width t.height m y o hy ho1 ho2 hrows hw32
  · intro y hy x hx
    exact renderRows_alpha fi t.pitch t.width t.height m hp y x hy hx hrows hw32

/-- C8 counterexample to the claim as stated: the texture
`width = 1, height = 3, pitch = 2 ^ 31` satisfies the claim's hypotheses
(non-null data, nonzero width and height, `pitch ≥ width * 4`), yet the C
code computes `y * pitch` in `uint32_t`, so row 2 wraps to byte offset 0
(`2 * 2 ^ 31 ≡ 0 (mod 2 ^ 32)`): the alpha byte the claim locates at
`2 * pitch + 0 * 4 + 3` keeps its original value `0` instead of `255`, and
the wrapped row-2 write lands on row 0 (byte 1 holds row 2's green value
`2`). -/
theorem render_gradient_wrap_counterexample :
    4 * (1 : Nat) ≤ 2 ^ 31 ∧
    render_gradient (some ⟨[⟨some (fun _ => 0), 1, 3, 2 ^ 31⟩]⟩) 0
      = some ⟨[renderTexture 0 ⟨some (fun _ => 0), 1, 3, 2 ^ 31⟩]⟩ ∧
    ∃ m2, (renderTexture 0 ⟨some (fun _ => 0), 1, 3, 2 ^ 31⟩).texture_data = some m2 ∧
      m2 (2 * 2 ^ 31 + 0 * 4 + 3) = 0 ∧
      m2 (2 * 2 ^ 31 + 0 * 4 + 3) ≠ 255 ∧
      m2 1 = 2 := by
  refine ⟨by norm_num, rfl, renderRows 0 (2 ^ 31) 1 3 (fun _ => 0), rfl, ?_, ?_, ?_⟩
  · decide
  · decide
  · decide

/-- Single-texture 1×1 frame with pitch 8 used to instantiate the
rendering theorems. -/
def witnessTexture : QarVideoTextureCpu :=
  ⟨some (fun _ => 7), 1, 1, 8⟩

/-- Frame containing just `witnessTexture`. -/
def witnessFrame : QarVideoFrameCpu :=
  ⟨[witnessTexture]⟩

/-- Concrete instance of `render_gradient_pitch_rows` on a 1×1 texture with
pitch 8 over the constant-7 buffer. -/
theorem render_gradient_pitch_rows_witness :
    ∃ m2, (renderTexture 0 witnessTexture).texture_data = some m2 ∧
      (∀ a, (∀ y < witnessTexture.height,
          a < y * witnessTexture.pitch ∨
          y * witnessTexture.pitch + 4 * witnessTexture.width ≤ a) →
        m2 a = (fun _ => 7) a) ∧
      (∀ y < witnessTexture.height, ∀ o, 4 * witnessTexture.width ≤ o →
        o < witnessTexture.pitch →
        m2 (y * witnessTexture.pitch + o) = (fun _ => 7) (y * witnessTexture.pitch + o)) ∧
      (∀ y < witnessTexture.height, ∀ x < witnessTexture.width,
        m2 (y * witnessTexture.pitch + x * 4 + 3) = 255) :=
  (render_gradient_pitch_rows witnessFrame 0 witnessTexture
    (by simp [witnessFrame]) (fun _ => 7) rfl (by decide) (by decide) (by decide)
    (by decide) (by decide)).2.2

/-! ### Library model

The qar-streaming-c library itself (session establishment, registries,
render sender, asynchronous invitation) ships as a binary package
(`package/` per the repository README) and is not part of the source tree;
the definitions below are modelled from the specification. -/

/-- Modelled from the spec: the error taxonomy of section 7 of the spec;
the library's numeric `QarResult.code` classification is not in the source
tree. -/
inductive QarErrKind where
  | InvalidArgument | InvalidInvite | ConnectionFailed | NotFound
  | CapacityExceeded | FrameAlreadyInProgress | Cancelled | Internal
  deriving DecidableEq, Repr

/-- Modelled from the spec: a uniform operation outcome, classified
success/error by a single predicate (`qar_result_is_success`). -/
inductive QarResult where
  | ok
  | error (kind : QarErrKind)
  deriving DecidableEq, Repr

/-- The success/error classification predicate over a `QarResult`. -/
def qar_result_is_success : QarResult → Bool
  | .ok => true
  | .error _ => false

/-- Fixed length of the opaque byte identifiers (session id, peer id,
object ids). -/
def QAR_MAX_ID_LENGTH : Nat := 16

/-- A fixed-length opaque session identifier. -/
structure QarSessionId where
  data : List (Fin 256)
  deriving DecidableEq, Repr

/-- Modelled from the spec: a joined session membership handle; the
implementation of `QarSession` is not in the source tree. -/
structure QarSession where
  session_id : QarSessionId
  peer_display_name : List Char
  deriving DecidableEq, Repr

/-- An invite: session identifier plus the serializable, copyable payload
bytes (`invite->data` / `invite->data_size`). -/
structure QarSessionInvite where
  session_id : QarSessionId
  data : List (Fin 256)
  deriving DecidableEq, Repr

/-- Modelled from the spec: the runtime is the factory for sessions; its
only observable state here is the supply of fresh session identities. -/
structure QarRuntime where
  next_session : Nat
  deriving DecidableEq, Repr

/-- Modelled from the spec: library-owned storage of live Invite objects,
keyed by handle.  `qar_session_invite_destroy` removes the object; payload
copies are plain byte values and live outside this store. -/
structure QarLib where
  invites : List (Nat × QarSessionInvite)
  next_invite_handle : Nat

/-- Little-endian fixed-length byte encoding of a fresh session number. -/
def idBytes (n : Nat) : List (Fin 256) :=
  (List.range QAR_MAX_ID_LENGTH).map
    (fun i => ⟨n / 256 ^ i % 256, Nat.mod_lt _ (by norm_num)⟩)

/-- Opaque header bytes of the handshake payload. -/
def invite_magic : List (Fin 256) := [81, 65, 82, 49]

/-- Modelled from the spec: `qar_runtime_create_session` allocates a new
session identity and returns an Invite token (object handle plus value)
whose payload embeds the fixed-length session identifier. -/
def qar_runtime_create_session (lib : QarLib) (rt : QarRuntime) :
    (Nat × QarSessionInvite) × QarLib × QarRuntime :=
  let sid : QarSessionId := ⟨idBytes rt.next_session⟩
  let inv : QarSessionInvite := ⟨sid, invite_magic ++ sid.data⟩
  ((lib.next_invite_handle, inv),
   ⟨lib.invites ++ [(lib.next_invite_handle, inv)], lib.next_invite_handle + 1⟩,
   ⟨rt.next_session + 1⟩)

/-- Modelled from the spec: `qar_session_invite_destroy` destroys the
Invite object (removes it from the library store); it does not touch
payload copies. -/
def qar_session_invite_destroy (lib : QarLib) (handle : Nat) : QarLib :=
  ⟨lib.invites.filter (fun entry => !(entry.1 == handle)), lib.next_invite_handle⟩

/-- Dereferencing a live Invite object's payload (`invite->data`); `none`
once the object has been destroyed. -/
def invite_object_data (lib : QarLib) (handle : Nat) : Option (List (Fin 256)) :=
  (lib.invites.find? (fun entry => entry.1 == handle)).map (fun entry => entry.2.data)

/-- Modelled from the spec: `qar_session_join` validates the payload bytes
and establishes the caller as a peer of the referenced session, failing
with `InvalidInvite` on a malformed payload.  Join depends only on the
payload bytes, never on the Invite object. -/
def qar_session_join (invite_data : List (Fin 256)) (display_name : List Char) :
    Except QarErrKind QarSession :=
  if invite_data.take invite_magic.length = invite_magic ∧
      invite_data.length = invite_magic.length + QAR_MAX_ID_LENGTH then
    .ok ⟨⟨invite_data.drop invite_magic.length⟩, display_name⟩
  else
    .error .InvalidInvite

lemma idBytes_length (n : Nat) : (idBytes n).length = QAR_MAX_ID_LENGTH := by
  simp [idBytes]

lemma join_of_created (lib : QarLib) (rt : QarRuntime) (name : List Char) :
    qar_session_join ((qar_runtime_create_session lib rt).1.2).data name =
      .ok ⟨(qar_runtime_create_session lib rt).1.2.session_id, name⟩ := by
  simp only [qar_runtime_create_session, qar_session_join]
  rw [if_pos ⟨List.take_left invite_magic (idBytes rt.next_session),
    by simp [idBytes_length]⟩]
  rw [List.drop_left]

lemma invite_object_gone (lib : QarLib) (handle : Nat) :
    invite_object_data (qar_session_invite_destroy lib handle) handle = none := by
  simp only [invite_object_data, qar_session_invite_destroy]
  rw [List.find?_eq_none.mpr]
  · rfl
  · intro x hx
    have := (List.mem_filter.mp hx).2
    simpa using this

/-- C1: for every session created via `qar_runtime_create_session`, two
independent `qar_session_join` calls on byte-identical copies of the invite
payload both succeed and produce two session handles whose `session_id`
values are equal. -/
theorem invite_convergence (lib : QarLib) (rt : QarRuntime)
    (copy : List (Fin 256))
    (hcopy : copy = (qar_runtime_create_session lib rt).1.2.data)
    (name1 name2 : List Char) :
    ∃ s1 s2 : QarSession,
      qar_session_join (qar_runtime_create_session lib rt).1.2.data name1 = .ok s1 ∧
      qar_session_join copy name2 = .ok s2 ∧
      s1.session_id = s2.session_id := by
  subst hcopy
  exact ⟨_, _, join_of_created lib rt name1, join_of_created lib rt name2, rfl⟩

/-- Concrete instance of `invite_convergence`: host and guest join from the
first invite of a fresh runtime. -/
theorem invite_convergence_witness :
    ∃ s1 s2 : QarSession,
      qar_session_join (qar_runtime_create_session ⟨[], 0⟩ ⟨0⟩).1.2.data ['h'] = .ok s1 ∧
      qar_session_join (qar_runtime_create_session ⟨[], 0⟩ ⟨0⟩).1.2.data ['g'] = .ok s2 ∧
      s1.session_id = s2.session_id :=
  invite_convergence ⟨[], 0⟩ ⟨0⟩ _ rfl ['h'] ['g']

/-- C6: destroying the Invite object after copying its payload removes the
object (its payload can no longer be read through the handle) but does not
invalidate the copied payload bytes: a later `qar_session_join` using the
copy still succeeds, for the same session. -/
theorem invite_destroy_payload_independence (lib : QarLib) (rt : QarRuntime)
    (copy : List (Fin 256)) (name : List Char)
    (hcopy : copy = (qar_runtime_create_session lib rt).1.2.data) :
    invite_object_data
      (qar_session_invite_destroy (qar_runtime_create_session lib rt).2.1
        (qar_runtime_create_session lib rt).1.1)
      (qar_runtime_create_session lib rt).1.1 = none ∧
    ∃ s : QarSession, qar_session_join copy name = .ok s ∧
      s.session_id = (qar_runtime_create_session lib rt).1.2.session_id := by
  subst hcopy
  exact ⟨invite_object_gone _ _, _, join_of_created lib rt name, rfl⟩

/-- Concrete instance of `invite_destroy_payload_independence` on a fresh
runtime's first invite. -/
theorem invite_destroy_payload_independence_witness :
    invite_object_data
      (qar_session_invite_destroy (qar_runtime_create_session ⟨[], 0⟩ ⟨0⟩).2.1
        (qar_runtime_create_session ⟨[], 0⟩ ⟨0⟩).1.1)
      (qar_runtime_create_session ⟨[], 0⟩ ⟨0⟩).1.1 = none ∧
    ∃ s : QarSession,
      qar_session_join (qar_runtime_create_session ⟨[], 0⟩ ⟨0⟩).1.2.data ['g'] = .ok s ∧
      s.session_id = (qar_runtime_create_session ⟨[], 0⟩ ⟨0⟩).1.2.session_id :=
  invite_destroy_payload_independence ⟨[], 0⟩ ⟨0⟩ _ ['g'] rfl

/-! ### Scene object registry (GuiPanels / AppVolumes) -/

/-- Modelled from the spec: the id-keyed, peer-visible scene object
registry, one instantiation each for GuiPanel and AppVolume
(`qar_query_gui_panels`, `qar_query_app_volumes`, `qar_gui_panels_*`,
`qar_app_volumes_*` are not in the source tree).  `α` is the
kind-specific object payload (display name, pose, size, state). -/
structure SceneRegistry (α : Type) where
  objects : List (Nat × α)
  next_id : Nat

/-- Operation `add(session, init) -> Id`: allocates a new object. -/
def qar_scene_add {α : Type} (r : SceneRegistry α) (v : α) :
    (QarResult × Nat) × SceneRegistry α :=
  ((.ok, r.next_id), ⟨r.objects ++ [(r.next_id, v)], r.next_id + 1⟩)

/-- Operation `count(session) -> size`. -/
def qar_scene_count {α : Type} (r : SceneRegistry α) : Nat := r.objects.length

/-- Operation `query(session, out_handles, capacity, &written)`: writes handle leases
for the first `min count capacity` objects into the caller's array `out`
and leaves every other slot of `out` untouched; returns `written`. -/
def qar_scene_query {α : Type} (r : SceneRegistry α)
    (out : Nat → Option (Nat × α)) (capacity : Nat) :
    (Nat → Option (Nat × α)) × Nat :=
  let snapshot := r.objects.take capacity
  ((fun i => match snapshot.get? i with
    | some entry => some entry
    | none => out i), snapshot.length)

/-- Operation `update_*(session, id, new_value)`: applies immediately, `NotFound`
for a closed/unknown id. -/
def qar_scene_update {α : Type} (r : SceneRegistry α) (id : Nat) (v : α) :
    QarResult × SceneRegistry α :=
  if r.objects.any (fun entry => entry.1 == id) then
    (.ok, ⟨r.objects.map (fun entry => if entry.1 == id then (id, v) else entry),
      r.next_id⟩)
  else (.error .NotFound, r)

/-- A getter against an id: `NotFound` for a closed/unknown id. -/
def qar_scene_get {α : Type} (r : SceneRegistry α) (id : Nat) :
    Except QarErrKind α :=
  match r.objects.find? (fun entry => entry.1 == id) with
  | some entry => .ok entry.2
  | none => .error .NotFound

/-- Operation `close(session, id)`: removes the object session-wide; `NotFound` on an
already-closed id, leaving the registry untouched. -/
def qar_scene_close {α : Type} (r : SceneRegistry α) (id : Nat) :
    QarResult × SceneRegistry α :=
  if r.objects.any (fun entry => entry.1 == id) then
    (.ok, ⟨r.objects.filter (fun entry => !(entry.1 == id)), r.next_id⟩)
  else (.error .NotFound, r)

/-- C3: `query` writes `written = min(count, capacity)` handles, never
touches any slot of the caller's array at or beyond `capacity`, and with
`capacity < count` returns `written = capacity`. -/
theorem registry_query_capacity_bound {α : Type} (r : SceneRegistry α)
    (out : Nat → Option (Nat × α)) (capacity : Nat) :
    (qar_scene_query r out capacity).2 = min (qar_scene_count r) capacity ∧
    (∀ i, capacity ≤ i → (qar_scene_query r out capacity).1 i = out i) ∧
    (capacity < qar_scene_count r → (qar_scene_query r out capacity).2 = capacity) := by
  refine ⟨?_, ?_, ?_⟩
  · simp [qar_scene_query, qar_scene_count, List.length_take, Nat.min_comm]
  · intro i hi
    have hlen : (r.objects.take capacity).length ≤ i := by
      have := List.length_take capacity r.objects
      omega
    simp only [qar_scene_query]
    rw [List.get?_eq_none.mpr hlen]
  · intro hlt
    simp only [qar_scene_query, List.length_take]
    simp only [qar_scene_count] at hlt
    omega

/-- Concrete instance of `registry_query_capacity_bound`: five objects
queried with capacity 3 yield `written = 3` and leave slot 7 of the output
array untouched. -/
theorem registry_query_capacity_bound_witness :
    (qar_scene_query (⟨[(0, 0), (1, 1), (2, 2), (3, 3), (4, 4)], 5⟩ : SceneRegistry Nat)
      (fun _ => none) 3).2
      = min (qar_scene_count (⟨[(0, 0), (1, 1), (2, 2), (3, 3), (4, 4)], 5⟩ :
          SceneRegistry Nat)) 3 ∧
    (qar_scene_query (⟨[(0, 0), (1, 1), (2, 2), (3, 3), (4, 4)], 5⟩ : SceneRegistry Nat)
      (fun _ => none) 3).1 7 = none ∧
    (qar_scene_query (⟨[(0, 0), (1, 1), (2, 2), (3, 3), (4, 4)], 5⟩ : SceneRegistry Nat)
      (fun _ => none) 3).2 = 3 :=
  ⟨(registry_query_capacity_bound _ (fun _ => none) 3).1,
   (registry_query_capacity_bound _ (fun _ => none) 3).2.1 7 (by decide),
   (registry_query_capacity_bound _ (fun _ => none) 3).2.2 (by decide)⟩

lemma close_not_mem {α : Type} (r : SceneRegistry α) (id : Nat) :
    ∀ entry ∈ (qar_scene_close r id).2.objects, entry.1 ≠ id := by
  intro entry he
  by_cases hany : r.objects.any (fun entry => entry.1 == id)
  · simp only [qar_scene_close, if_pos hany] at he
    have := (List.mem_filter.mp he).2
    simpa using this
  · simp only [qar_scene_close, if_neg hany] at he
    have hf : (r.objects.any (fun entry => entry.1 == id)) = false :=
      Bool.eq_false_iff.mpr hany
    have hall := List.any_eq_false.mp hf
    simpa using hall entry he

/-- C5: after `close(session, id)` succeeds, `query` no longer lists `id`
(neither in the registry nor among the written slots), `update_*` and
getters against `id` return `NotFound`, and a second `close` on `id`
returns `NotFound` leaving the registry state unchanged. -/
theorem registry_close_visibility {α : Type} (r : SceneRegistry α) (id : Nat) (v : α)
    (h : (qar_scene_close r id).1 = .ok) :
    id ∉ (qar_scene_close r id).2.objects.map Prod.fst ∧
    (∀ out capacity i p,
      i < (qar_scene_query (qar_scene_close r id).2 out capacity).2 →
      (qar_scene_query (qar_scene_close r id).2 out capacity).1 i = some p →
      p.1 ≠ id) ∧
    qar_scene_update (qar_scene_close r id).2 id v
      = (.error .NotFound, (qar_scene_close r id).2) ∧
    qar_scene_get (qar_scene_close r id).2 id = .error .NotFound ∧
    qar_scene_close (qar_scene_close r id).2 id
      = (.error .NotFound, (qar_scene_close r id).2) := by
  have hnm := close_not_mem r id
  set r2 := (qar_scene_close r id).2 with hr2
  have hany : (r2.objects.any (fun entry => entry.1 == id)) = false := by
    rw [List.any_eq_false]
    intro entry he
    simpa using hnm entry he
  refine ⟨?_, ?_, ?_, ?_, ?_⟩
  · rw [List.mem_map]
    rintro ⟨entry, he, heq⟩
    exact hnm entry he heq
  · intro out capacity i p hi hp
    simp only [qar_scene_query] at hi hp
    have hlen : i < (r2.objects.take capacity).length := hi
    rw [List.get?_eq_get hlen] at hp
    simp only at hp
    obtain rfl : (r2.objects.take capacity).get ⟨i, hlen⟩ = p := Option.some.inj hp
    exact hnm _ (List.take_subset _ _ (List.get_mem _ _ _))
  · simp [qar_scene_update, hany]
  · simp only [qar_scene_get]
    rw [List.find?_eq_none.mpr]
    intro entry he
    simpa using hnm entry he
  · simp [qar_scene_close, hany]

/-- Concrete instance of `registry_close_visibility`: closing id 0 in a
two-object registry. -/
theorem registry_close_visibility_witness :
    (0 : Nat) ∉ (qar_scene_close (⟨[(0, 10), (1, 11)], 2⟩ : SceneRegistry Nat)
      0).2.objects.map Prod.fst ∧
    (∀ out capacity i p,
      i < (qar_scene_query
        (qar_scene_close (⟨[(0, 10), (1, 11)], 2⟩ : SceneRegistry Nat) 0).2
        out capacity).2 →
      (qar_scene_query
        (qar_scene_close (⟨[(0, 10), (1, 11)], 2⟩ : SceneRegistry Nat) 0).2
        out capacity).1 i = some p →
      p.1 ≠ 0) ∧
    qar_scene_update (qar_scene_close (⟨[(0, 10), (1, 11)], 2⟩ : SceneRegistry Nat) 0).2 0 99
      = (.error .NotFound,
        (qar_scene_close (⟨[(0, 10), (1, 11)], 2⟩ : SceneRegistry Nat) 0).2) ∧
    qar_scene_get (qar_scene_close (⟨[(0, 10), (1, 11)], 2⟩ : SceneRegistry Nat) 0).2 0
      = .error .NotFound ∧
    qar_scene_close (qar_scene_close (⟨[(0, 10), (1, 11)], 2⟩ : SceneRegistry Nat) 0).2 0
      = (.error .NotFound,
        (qar_scene_close (⟨[(0, 10), (1, 11)], 2⟩ : SceneRegistry Nat) 0).2) :=
  registry_close_visibility ⟨[(0, 10), (1, 11)], 2⟩ 0 99 (by decide)

/-! ### Render sender frame lifecycle -/

/-- Modelled from the spec: the single-frame-in-flight lifecycle
`Idle --begin_frame--> Began --frame_buffers--> Populated
--show_frame--> Idle`. -/
inductive FrameState where
  | Idle | Began | Populated
  deriving DecidableEq, Repr

/-- Modelled from the spec: which graphics backend a sender is bound to at
creation. -/
inductive QarGraphicsApi where
  | CPU | GPU
  deriving DecidableEq, Repr

/-- Modelled from the spec: a per-session frame producer
(`QarRenderSender`); its observable state here is the frame lifecycle
state and the backend bound at creation. -/
structure QarRenderSender where
  frame_state : FrameState
  graphics_api : QarGraphicsApi
  deriving DecidableEq, Repr

/-- Modelled from the spec: `qar_render_sender_create` binds one sender to
one backend; a fresh sender is `Idle`. -/
def qar_render_sender_create (api : QarGraphicsApi) : QarResult × QarRenderSender :=
  (.ok, ⟨.Idle, api⟩)

/-- Modelled from the spec: `qar_render_sender_begin_frame` fails with
`FrameAlreadyInProgress` while a prior frame is Began/Populated (not yet
shown or discarded). -/
def qar_render_sender_begin_frame (s : QarRenderSender) : QarResult × QarRenderSender :=
  match s.frame_state with
  | .Idle => (.ok, { s with frame_state := .Began })
  | _ => (.error .FrameAlreadyInProgress, s)

/-- Modelled from the spec: `qar_render_sender_frame_cpu` populates the
begun frame's buffers. -/
def qar_render_sender_frame_cpu (s : QarRenderSender) : QarResult × QarRenderSender :=
  match s.frame_state with
  | .Began => (.ok, { s with frame_state := .Populated })
  | _ => (.error .Internal, s)

/-- Modelled from the spec: `qar_render_sender_show_frame` commits the
in-flight frame for transmission and transitions back to `Idle`. -/
def qar_render_sender_show_frame (s : QarRenderSender) : QarResult × QarRenderSender :=
  match s.frame_state with
  | .Idle => (.error .Internal, s)
  | _ => (.ok, { s with frame_state := .Idle })

/-- C2: `begin_frame` while a frame is Began or Populated fails with
`FrameAlreadyInProgress` and leaves the sender unchanged (at most one
frame in flight); from `Idle`, `begin_frame` succeeds, a second
back-to-back `begin_frame` fails with `FrameAlreadyInProgress` (with or
without populating in between), and showing the frame returns the sender
to `Idle` so that the next `begin_frame` succeeds. -/
theorem render_sender_single_flight (s : QarRenderSender) :
    ((s.frame_state = .Began ∨ s.frame_state = .Populated) →
      qar_render_sender_begin_frame s = (.error .FrameAlreadyInProgress, s)) ∧
    (s.frame_state = .Idle →
      (qar_render_sender_begin_frame s).1 = .ok ∧
      (qar_render_sender_begin_frame s).2.frame_state = .Began ∧
      (qar_render_sender_begin_frame (qar_render_sender_begin_frame s).2).1
        = .error .FrameAlreadyInProgress ∧
      (qar_render_sender_frame_cpu (qar_render_sender_begin_frame s).2).2.frame_state
        = .Populated ∧
      (qar_render_sender_begin_frame
        (qar_render_sender_frame_cpu (qar_render_sender_begin_frame s).2).2).1
        = .error .FrameAlreadyInProgress ∧
      (qar_render_sender_show_frame (qar_render_sender_begin_frame s).2).2.frame_state
        = .Idle ∧
      (qar_render_sender_begin_frame
        (qar_render_sender_show_frame (qar_render_sender_begin_frame s).2).2).1
        = .ok) := by
  rcases s with ⟨fs, api⟩
  cases fs <;>
    simp [qar_render_sender_begin_frame, qar_render_sender_frame_cpu,
      qar_render_sender_show_frame]

/-- Concrete instance of `render_sender_single_flight` on a freshly created
CPU sender. -/
theorem render_sender_single_flight_witness :
    (qar_render_sender_begin_frame (⟨.Idle, .CPU⟩ : QarRenderSender)).1 = .ok ∧
    (qar_render_sender_begin_frame
      (qar_render_sender_begin_frame (⟨.Idle, .CPU⟩ : QarRenderSender)).2).1
      = .error .FrameAlreadyInProgress ∧
    (qar_render_sender_begin_frame
      (qar_render_sender_show_frame
        (qar_render_sender_begin_frame (⟨.Idle, .CPU⟩ : QarRenderSender)).2).2).1
      = .ok :=
  ⟨((render_sender_single_flight ⟨.Idle, .CPU⟩).2 rfl).1,
   ((render_sender_single_flight ⟨.Idle, .CPU⟩).2 rfl).2.2.1,
   ((render_sender_single_flight ⟨.Idle, .CPU⟩).2 rfl).2.2.2.2.2.2⟩

/-! ### Asynchronous peer invitation and cancellation -/

/-- A fixed-length opaque peer identifier. -/
structure QarPeerId where
  data : List (Fin 256)
  deriving DecidableEq, Repr

/-- Modelled from the spec: the peer-invitation state machine
`Queued -> Negotiating -> (Resolved | Failed | Cancelled)`. -/
inductive InvState where
  | Queued | Negotiating | Resolved | Failed | Cancelled
  deriving DecidableEq, Repr

/-- Observable events of one invitation: an `on_update` callback with
progress text, the terminal `on_result` callback with its `QarResult` and
(on success) the resolved peer id, and the return of
`qar_session_destroy`. -/
inductive InvEvent where
  | onUpdate (message : List Char)
  | onResult (status : QarResult) (peer : Option QarPeerId)
  | destroyReturn
  deriving DecidableEq, Repr

/-- Modelled from the spec: a session together with its (at most one)
pending peer invitation, whether the session has been destroyed, and the
trace of callback/destroy events observed so far. -/
structure InvConfig where
  inv : Option InvState
  destroyed : Bool
  trace : List InvEvent
  deriving DecidableEq, Repr

/-- Modelled from the spec: `qar_session_invite_peer_async` enqueues an
invitation and returns immediately; the returned `QarResult` describes only
enqueue success or failure and no callback event is emitted by the call
itself. -/
def qar_session_invite_peer_async (c : InvConfig) : QarResult × InvConfig :=
  if c.destroyed then (.error .InvalidArgument, c)
  else match c.inv with
    | none => (.ok, { c with inv := some .Queued })
    | some _ => (.error .Internal, c)

/-- Whether a pending invitation has reached a terminal state. -/
def isTerminal : Option InvState → Bool
  | some .Resolved => true
  | some .Failed => true
  | some .Cancelled => true
  | _ => false

/-- Modelled from the spec: one step of the implementation-owned worker or
of session teardown.  Negotiation may progress (`on_update`), resolve with
a peer id, or fail; destroying the session with a pending invitation
cancels it, delivers the terminal `Cancelled` result, and only then does
the destroy call return; destroying with the invitation already terminal
just returns.  No step is possible after the session is destroyed. -/
inductive InvStep : InvConfig → InvConfig → Prop where
  | negotiate (c : InvConfig) (h1 : c.destroyed = false) (h2 : c.inv = some .Queued) :
      InvStep c { c with inv := some .Negotiating }
  | progress (c : InvConfig) (msg : List Char) (h1 : c.destroyed = false)
      (h2 : c.inv = some .Negotiating) :
      InvStep c { c with trace := c.trace ++ [InvEvent.onUpdate msg] }
  | resolve (c : InvConfig) (peer : QarPeerId) (h1 : c.destroyed = false)
      (h2 : c.inv = some .Negotiating) :
      InvStep c { c with
        inv := some .Resolved
        trace := c.trace ++ [InvEvent.onResult QarResult.ok (some peer)] }
  | failStep (c : InvConfig) (k : QarErrKind) (h1 : c.destroyed = false)
      (h2 : c.inv = some .Negotiating) :
      InvStep c { c with
        inv := some .Failed
        trace := c.trace ++ [InvEvent.onResult (QarResult.error k) none] }
  | destroyPending (c : InvConfig) (h1 : c.destroyed = false)
      (h2 : c.inv = some .Queued ∨ c.inv = some .Negotiating) :
      InvStep c { c with
        destroyed := true
        inv := some .Cancelled
        trace := c.trace ++
          [InvEvent.onResult (QarResult.error QarErrKind.Cancelled) none,
            InvEvent.destroyReturn] }
  | destroyDone (c : InvConfig) (h1 : c.destroyed = false)
      (h2 : isTerminal c.inv = true) :
      InvStep c { c with
        destroyed := true
        trace := c.trace ++ [InvEvent.destroyReturn] }

/-- Reachability by zero or more invitation steps. -/
inductive InvReach : InvConfig → InvConfig → Prop where
  | refl (c : InvConfig) : InvReach c c
  | tail {a b c : InvConfig} : InvReach a b → InvStep b c → InvReach a c

/-- Whether an event is an `on_result` callback invocation. -/
def isResultEvent : InvEvent → Bool
  | .onResult _ _ => true
  | _ => false

/-- Number of `on_result` invocations in a trace. -/
def resultCount (tr : List InvEvent) : Nat :=
  (tr.filter isResultEvent).length

/-- Invariant of every configuration reachable from a freshly enqueued
invitation. -/
def InvGood (c : InvConfig) : Prop :=
  c.inv ≠ none ∧
  resultCount c.trace = (if isTerminal c.inv then 1 else 0) ∧
  (∀ st p, InvEvent.onResult st p ∈ c.trace → qar_result_is_success st = true → p ≠ none) ∧
  (c.destroyed = false → InvEvent.destroyReturn ∉ c.trace) ∧
  (c.destroyed = true →
    ∃ pre, c.trace = pre ++ [InvEvent.destroyReturn] ∧ InvEvent.destroyReturn ∉ pre) ∧
  (c.destroyed = true → isTerminal c.inv = true) ∧
  (∀ i j m st p, c.trace.get? i = some (.onUpdate m) →
    c.trace.get? j = some (.onResult st p) → i < j)

lemma resultCount_append (tr l : List InvEvent) :
    resultCount (tr ++ l) = resultCount tr + resultCount l := by
  simp [resultCount, List.filter_append]

lemma not_result_mem_of_count_zero {tr : List InvEvent} (h : resultCount tr = 0)
    {st : QarResult} {p : Option QarPeerId} : InvEvent.onResult st p ∉ tr := by
  intro hm
  have hmf : InvEvent.onResult st p ∈ tr.filter isResultEvent :=
    List.mem_filter.mpr ⟨hm, rfl⟩
  rw [resultCount, List.length_eq_zero] at h
  rw [h] at hmf
  cases hmf

lemma no_result_index_of_count_zero {tr : List InvEvent} (h : resultCount tr = 0)
    {j : Nat} {st : QarResult} {p : Option QarPeerId}
    (hj : tr.get? j = some (.onResult st p)) : False :=
  not_result_mem_of_count_zero h (List.get?_mem hj)

lemma appended_event_index {tr : List InvEvent} {e x : InvEvent} {i : Nat}
    (h : (tr ++ [e]).get? i = some x) :
    (tr.get? i = some x ∧ i < tr.length) ∨ (i = tr.length ∧ x = e) := by
  by_cases hi : i < tr.length
  · left
    rw [List.get?_append hi] at h
    exact ⟨h, hi⟩
  · right
    rw [List.get?_append_right (by omega)] at h
    rcases hg : i - tr.length with _ | n
    · rw [hg] at h
      simp at h
      have : i = tr.length := by omega
      exact ⟨this, h.symm⟩
    · rw [hg] at h
      simp at h

lemma update_event_index {tr : List InvEvent} {e : InvEvent} {i : Nat}
    {m : List Char} (he : ¬ e = InvEvent.onUpdate m)
    (h : (tr ++ [e]).get? i = some (.onUpdate m)) :
    tr.get? i = some (.onUpdate m) ∧ i < tr.length := by
  rcases appended_event_index h with ⟨h1, h2⟩ | ⟨h1, h2⟩
  · exact ⟨h1, h2⟩
  · exact absurd h2.symm he

lemma result_event_at_end {tr : List InvEvent} {st : QarResult} {p : Option QarPeerId}
    {j : Nat} (hz : resultCount tr = 0)
    (h : (tr ++ [InvEvent.onResult st p]).get? j = some (.onResult st p)) :
    j = tr.length := by
  rcases appended_event_index h with ⟨h1, _⟩ | ⟨h1, _⟩
  · exact absurd h1 (fun hh => no_result_index_of_count_zero hz hh)
  · exact h1

lemma invGood_preserved {a b : InvConfig} (hs : InvStep a b) (hg : InvGood a) :
    InvGood b := by
  obtain ⟨G1, G2, G3, G4, G5, G6, G7⟩ := hg
  cases hs with
  | negotiate h1 h2 =>
    dsimp only [InvGood]
    refine ⟨by simp, ?_, G3, G4, ?_, ?_, G7⟩
    · rw [h2] at G2
      simpa [isTerminal] using G2
    · intro hd; rw [h1] at hd; exact Bool.noConfusion hd
    · intro hd; rw [h1] at hd; exact Bool.noConfusion hd
  | progress msg h1 h2 =>
    have hz : resultCount a.trace = 0 := by
      rw [h2] at G2; simpa [isTerminal] using G2
    have hz2 : resultCount (a.trace ++ [InvEvent.onUpdate msg]) = 0 := by
      rw [resultCount_append, hz]; rfl
    dsimp only [InvGood]
    refine ⟨G1, ?_, ?_, ?_, ?_, G6, ?_⟩
    · rw [h2, hz2]; rfl
    · intro st p hm hsucc
      rcases List.mem_append.mp hm with hm | hm
      · exact G3 st p hm hsucc
      · simp at hm
    · intro hd hm
      rcases List.mem_append.mp hm with hm | hm
      · exact G4 hd hm
      · simp at hm
    · intro hd; rw [h1] at hd; exact Bool.noConfusion hd
    · intro i j m st p hi hj
      exact absurd hj (fun hh => no_result_index_of_count_zero hz2 hh)
  | resolve peer h1 h2 =>
    have hz : resultCount a.trace = 0 := by
      rw [h2] at G2; simpa [isTerminal] using G2
    dsimp only [InvGood]
    refine ⟨by simp, ?_, ?_, ?_, ?_, fun _ => rfl, ?_⟩
    · rw [resultCount_append, hz]; rfl
    · intro st p hm hsucc
      rcases List.mem_append.mp hm with hm | hm
      · exact absurd hm (not_result_mem_of_count_zero hz)
      · rcases List.mem_singleton.mp hm with hm2
        injection hm2 with hst hp
        subst hp
        simp
    · intro hd hm
      rcases List.mem_append.mp hm with hm | hm
      · exact G4 h1 hm
      · simp at hm
    · intro hd; rw [h1] at hd; exact Bool.noConfusion hd
    · intro i j m st p hi hj
      have hiu := update_event_index (m := m)
        (e := InvEvent.onResult QarResult.ok (some peer)) (by intro hh; cases hh) hi
      rcases appended_event_index hj with ⟨hj1, _⟩ | ⟨hj1, _⟩
      · exact absurd hj1 (fun hh => no_result_index_of_count_zero hz hh)
      · have := hiu.2
        omega
  | failStep k h1 h2 =>
    have hz : resultCount a.trace = 0 := by
      rw [h2] at G2; simpa [isTerminal] using G2
    dsimp only [InvGood]
    refine ⟨by simp, ?_, ?_, ?_, ?_, fun _ => rfl, ?_⟩
    · rw [resultCount_append, hz]; rfl
    · intro st p hm hsucc
      rcases List.mem_append.mp hm with hm | hm
      · exact absurd hm (not_result_mem_of_count_zero hz)
      · rcases List.mem_singleton.mp hm with hm2
        injection hm2 with hst hp
        subst hst
        exact absurd hsucc (by simp [qar_result_is_success])
    · intro hd hm
      rcases List.mem_append.mp hm with hm | hm
      · exact G4 h1 hm
      · simp at hm
    · intro hd; rw [h1] at hd; exact Bool.noConfusion hd
    · intro i j m st p hi hj
      have hiu := update_event_index (m := m)
        (e := InvEvent.onResult (QarResult.error k) none) (by intro hh; cases hh) hi
      rcases appended_event_index hj with ⟨hj1, _⟩ | ⟨hj1, _⟩
      · exact absurd hj1 (fun hh => no_result_index_of_count_zero hz hh)
      · have := hiu.2
        omega
  | destroyPending h1 h2 =>
    have hz : resultCount a.trace = 0 := by
      rcases h2 with h2 | h2 <;> (rw [h2] at G2; simpa [isTerminal] using G2)
    have hassoc : a.trace ++
        [InvEvent.onResult (QarResult.error QarErrKind.Cancelled) none,
          InvEvent.destroyReturn]
        = (a.trace ++ [InvEvent.onResult (QarResult.error QarErrKind.Cancelled) none])
          ++ [InvEvent.destroyReturn] := by
      simp
    dsimp only [InvGood]
    refine ⟨by simp, ?_, ?_, ?_, ?_, fun _ => rfl, ?_⟩
    · rw [resultCount_append, hz]; rfl
    · intro st p hm hsucc
      rcases List.mem_append.mp hm with hm | hm
      · exact absurd hm (not_result_mem_of_count_zero hz)
      · rcases List.mem_cons.mp hm with hm2 | hm2
        · injection hm2 with hst hp
          subst hst
          exact absurd hsucc (by simp [qar_result_is_success])
        · rcases List.mem_singleton.mp hm2 with hm3
          exact InvEvent.noConfusion hm3
    · intro hd; exact Bool.noConfusion hd
    · intro _
      refine ⟨a.trace ++ [InvEvent.onResult (QarResult.error QarErrKind.Cancelled) none],
        hassoc, ?_⟩
      intro hm
      rcases List.mem_append.mp hm with hm | hm
      · exact G4 h1 hm
      · simp at hm
    · intro i j m st p hi hj
      rw [hassoc] at hi hj
      have hiu := update_event_index (m := m)
        (e := InvEvent.destroyReturn) (by intro hh; cases hh) hi
      have hiu2 := update_event_index (m := m)
        (e := InvEvent.onResult (QarResult.error QarErrKind.Cancelled) none)
        (by intro hh; cases hh) hiu.1
      rcases appended_event_index hj with ⟨hj1, hj2⟩ | ⟨hj1, hj2⟩
      · rcases appended_event_index hj1 with ⟨hk1, hk2⟩ | ⟨hk1, hk2⟩
        · exact absurd hk1 (fun hh => no_result_index_of_count_zero hz hh)
        · have := hiu2.2
          omega
      · exact InvEvent.noConfusion hj2
  | destroyDone h1 h2 =>
    dsimp only [InvGood]
    refine ⟨G1, ?_, ?_, ?_, ?_, fun _ => h2, ?_⟩
    · rw [resultCount_append]
      simpa using G2
    · intro st p hm hsucc
      rcases List.mem_append.mp hm with hm | hm
      · exact G3 st p hm hsucc
      · simp at hm
    · intro hd; exact Bool.noConfusion hd
    · intro _
      exact ⟨a.trace, rfl, G4 h1⟩
    · intro i j m st p hi hj
      have hiu := update_event_index (m := m)
        (e := InvEvent.destroyReturn) (by intro hh; cases hh) hi
      rcases appended_event_index hj with ⟨hj1, _⟩ | ⟨hj1, hj2⟩
      · exact G7 i j m st p hiu.1 hj1
      · exact InvEvent.noConfusion hj2

lemma invGood_start (c0 : InvConfig) (hinv : c0.inv = none) (hd : c0.destroyed = false)
    (htr : c0.trace = []) : InvGood (qar_session_invite_peer_async c0).2 := by
  obtain ⟨i0, d0, t0⟩ := c0
  simp only at hinv hd htr
  subst hinv; subst hd; subst htr
  refine ⟨by simp [qar_session_invite_peer_async], ?_, ?_, ?_, ?_, ?_, ?_⟩
  · rfl
  · intro st p hm
    simp [qar_session_invite_peer_async] at hm
  · intro _ hm
    simp [qar_session_invite_peer_async] at hm
  · intro hdd
    exact absurd hdd (by simp [qar_session_invite_peer_async])
  · intro hdd
    exact absurd hdd (by simp [qar_session_invite_peer_async])
  · intro i j m st p hi hj
    simp [qar_session_invite_peer_async] at hi

lemma invReach_good {c0 c : InvConfig} (hinv : c0.inv = none) (hd : c0.destroyed = false)
    (htr : c0.trace = []) (h : InvReach (qar_session_invite_peer_async c0).2 c) :
    InvGood c := by
  induction h with
  | refl => exact invGood_start c0 hinv hd htr
  | tail _ hs ih => exact invGood_preserved hs ih

/-- C7: a successfully enqueued `invite_peer_async` call returns
immediately with an enqueue-only `ok` result and emits no event itself; in
every reachable configuration the trace carries exactly one `on_result`
invocation once the invitation is terminal and none before, a successful
`on_result` carries a non-null resolved peer id, and every `on_update`
precedes the `on_result`. -/
theorem invite_peer_async_callback_contract (c0 c : InvConfig)
    (hinv : c0.inv = none) (hd : c0.destroyed = false) (htr : c0.trace = [])
    (h : InvReach (qar_session_invite_peer_async c0).2 c) :
    (qar_session_invite_peer_async c0).1 = .ok ∧
    (qar_session_invite_peer_async c0).2.trace = [] ∧
    resultCount c.trace = (if isTerminal c.inv then 1 else 0) ∧
    (∀ st p, InvEvent.onResult st p ∈ c.trace →
      qar_result_is_success st = true → p ≠ none) ∧
    (∀ i j m st p, c.trace.get? i = some (.onUpdate m) →
      c.trace.get? j = some (.onResult st p) → i < j) := by
  obtain ⟨G1, G2, G3, G4, G5, G6, G7⟩ := invReach_good hinv hd htr h
  obtain ⟨i0, d0, t0⟩ := c0
  simp only at hinv hd htr
  subst hinv; subst hd; subst htr
  exact ⟨rfl, rfl, G2, G3, G7⟩

/-- C4: destroying the session while an invitation is pending cancels it
(a destroyed session's invitation is always terminal), and the `on_result`
callback is never invoked after `qar_session_destroy` returns: in every
reachable trace every `on_result` event precedes the destroy-return
event. -/
theorem session_destroy_cancels_invitation (c0 c : InvConfig)
    (hinv : c0.inv = none) (hd : c0.destroyed = false) (htr : c0.trace = [])
    (h : InvReach (qar_session_invite_peer_async c0).2 c) :
    (c.destroyed = true → isTerminal c.inv = true) ∧
    (∀ i j st p, c.trace.get? i = some InvEvent.destroyReturn →
      c.trace.get? j = some (.onResult st p) → j < i) := by
  obtain ⟨G1, G2, G3, G4, G5, G6, G7⟩ := invReach_good hinv hd htr h
  refine ⟨G6, ?_⟩
  intro i j st p hi hj
  cases hdd : c.destroyed with
  | false => exact absurd (List.get?_mem hi) (G4 hdd)
  | true =>
    obtain ⟨pre, hpre, hnd⟩ := G5 hdd
    rw [hpre] at hi hj
    rcases appended_event_index hi with ⟨hi1, _⟩ | ⟨hi1, _⟩
    · exact absurd (List.get?_mem hi1) hnd
    · rcases appended_event_index hj with ⟨hj1, hj2⟩ | ⟨hj1, hj2⟩
      · omega
      · exact InvEvent.noConfusion hj2

/-- Concrete instance of `invite_peer_async_callback_contract` on the run
enqueue, negotiate, resolve. -/
theorem invite_peer_async_callback_contract_witness :
    (qar_session_invite_peer_async ⟨none, false, []⟩).1 = .ok ∧
    resultCount (⟨some .Resolved, false,
      [InvEvent.onResult QarResult.ok (some ⟨[]⟩)]⟩ : InvConfig).trace
      = (if isTerminal (⟨some .Resolved, false,
          [InvEvent.onResult QarResult.ok (some ⟨[]⟩)]⟩ : InvConfig).inv then 1 else 0) :=
  have hr : InvReach (qar_session_invite_peer_async ⟨none, false, []⟩).2
      (⟨some .Resolved, false, [InvEvent.onResult QarResult.ok (some ⟨[]⟩)]⟩ : InvConfig) :=
    InvReach.tail (InvReach.tail (InvReach.refl _)
      (InvStep.negotiate _ rfl rfl)) (InvStep.resolve _ ⟨[]⟩ rfl rfl)
  have hc := invite_peer_async_callback_contract ⟨none, false, []⟩ _ rfl rfl rfl hr
  ⟨hc.1, hc.2.2.1⟩

/-- Concrete instance of `session_destroy_cancels_invitation` on the run
enqueue, destroy-while-pending: the cancellation result (index 0) precedes
the destroy return (index 1). -/
theorem session_destroy_cancels_invitation_witness :
    isTerminal (⟨some .Cancelled, true,
      [InvEvent.onResult (QarResult.error QarErrKind.Cancelled) none,
        InvEvent.destroyReturn]⟩ : InvConfig).inv = true ∧
    (0 : Nat) < 1 :=
  have hr : InvReach (qar_session_invite_peer_async ⟨none, false, []⟩).2
      (⟨some .Cancelled, true,
        [InvEvent.onResult (QarResult.error QarErrKind.Cancelled) none,
          InvEvent.destroyReturn]⟩ : InvConfig) :=
    InvReach.tail (InvReach.refl _) (InvStep.destroyPending _ rfl (Or.inl rfl))
  have hc := session_destroy_cancels_invitation ⟨none, false, []⟩ _ rfl rfl rfl hr
  ⟨hc.1 rfl, hc.2 1 0 (QarResult.error QarErrKind.Cancelled) none rfl rfl⟩

end Qar
